import Mathlib

/- Verification development for the monitor-data archiver.

   The program fetches monitor records (each with a string RFC3339 timestamp),
   groups them by monitor id, sorts each group by parsed timestamp, splits the
   group into 5-minute slots between the rounded-down first timestamp and the
   rounded-up last timestamp, and stores one JSON artifact per non-empty slot
   in the object store under the key orgId/monitorId/<slot start>-data.json.

   Instants are modelled as seconds since the zero time (January 1 of year 1,
   UTC), which is how Go's `time.Time` measures absolute time; a parsed time
   also carries its fixed zone offset in seconds, which Go keeps for
   formatting.  `time.Round` and `time.Time.Add` act on the absolute seconds
   and preserve the offset. -/

namespace Archiver

/-- One fetched record (struct MonitorData): monitor id, raw timestamp string,
org id, and an opaque payload modelled as an association list. -/
structure MonitorData where
  MonitorId : String
  Timestamp : String
  OrgId : String
  Values : List (String × String)
deriving DecidableEq

/-- One artifact entry (struct Entry).  Its JSON field names are fixed by the
struct tags: `timestamp` for Timestamp and `monitorId` for Values. -/
structure Entry where
  Timestamp : String
  Values : List (String × String)
deriving DecidableEq

/-- One compiled artifact (struct CompiledMonitorData). -/
structure CompiledMonitorData where
  MonitorId : String
  OrgId : String
  StartTime : String
  Entries : List Entry
deriving DecidableEq

/-- A Go `time.Time` as the program uses it: absolute seconds since the zero
time (year 1), plus the fixed zone offset in seconds kept for formatting. -/
structure GoTime where
  sec : Nat
  off : Int
deriving DecidableEq

/-- The zero `time.Time`, which `time.Parse` returns together with an error
on unparseable input. -/
def zeroTime : GoTime := { sec := 0, off := 0 }

/-- FILE_DURATION = 5 minutes, in seconds. -/
def FILE_DURATION : Nat := 300

/-- Go `t.Round(d)` on absolute seconds: the nearest multiple of `d`, halves
rounding up (Go rounds half away from zero; absolute times are nonnegative). -/
def goRound (t D : Nat) : Nat :=
  if D ≤ t % D * 2 then (t / D + 1) * D else t / D * D

/-- The program's start-of-range computation: round the first timestamp to the
nearest multiple of FILE_DURATION, and subtract one duration if the rounded
value lies after the timestamp. -/
def roundedDownStartTime (t D : Nat) : Nat :=
  if t < goRound t D then goRound t D - D else goRound t D

/-- The program's end-of-range computation: round the last timestamp to the
nearest multiple of FILE_DURATION, and add one duration if the rounded value
lies before the timestamp. -/
def roundedUpEndTime (t D : Nat) : Nat :=
  if goRound t D < t then goRound t D + D else goRound t D

/-- Direct floor alignment, as the specification defines `alignedStart`. -/
def alignedStart (t D : Nat) : Nat := t / D * D

/-- The smallest D-aligned boundary that is ≥ t (ceiling alignment). -/
def alignedCeil (t D : Nat) : Nat := if t % D = 0 then t else (t / D + 1) * D

/-- Fuel-indexed body of the program's slot loop; the fuel only bounds the
recursion depth and is chosen large enough in `splitTimes` that it never
runs out while the loop guard holds. -/
def splitTimesAux (D : Nat) : Nat → Nat → Nat → List Nat
  | _, _, 0 => []
  | splitT, endT, fuel + 1 =>
    if 0 < D ∧ splitT ≤ endT then
      (splitT - D) :: splitTimesAux D (splitT + D) endT fuel
    else []

/-- The program's slot loop: starting from `splitT`, while `splitT ≤ endT`
emit the slot start `splitT - D` and advance by `D`.  Since the loop advances
by D ≥ 1 each iteration, `endT + 1 - splitT` iterations always suffice. -/
def splitTimes (D splitT endT : Nat) : List Nat :=
  splitTimesAux D splitT endT (endT + 1 - splitT)

/-- The sequence of slot start times the program produces for a group whose
parsed timestamps range over [minT, maxT]. -/
def planStarts (minT maxT D : Nat) : List Nat :=
  splitTimes D (roundedDownStartTime minT D + D) (roundedUpEndTime maxT D)

/-- Numeric value of two decimal digit characters, if both are digits. -/
def digit2 (a b : Char) : Option Nat :=
  if a.isDigit ∧ b.isDigit then some ((a.toNat - 48) * 10 + (b.toNat - 48)) else none

/-- Numeric value of four decimal digit characters, if all are digits. -/
def digit4 (a b c d : Char) : Option Nat :=
  match digit2 a b, digit2 c d with
  | some hi, some lo => some (hi * 100 + lo)
  | _, _ => none

/-- Gregorian leap year rule, as Go's time package uses it. -/
def isLeap (y : Nat) : Bool := (y % 4 == 0 && y % 100 != 0) || y % 400 == 0

/-- Days in the year before (1-based) month m+1 in a non-leap year, Go's
daysBefore table. -/
def daysBefore (m : Nat) : Nat :=
  match m with
  | 0 => 0
  | 1 => 31
  | 2 => 59
  | 3 => 90
  | 4 => 120
  | 5 => 151
  | 6 => 181
  | 7 => 212
  | 8 => 243
  | 9 => 273
  | 10 => 304
  | 11 => 334
  | _ => 365

/-- Number of days in month m (1-based) of year y. -/
def daysInMonth (y m : Nat) : Nat :=
  if m = 2 then (if isLeap y then 29 else 28)
  else if m = 4 ∨ m = 6 ∨ m = 9 ∨ m = 11 then 30 else 31

/-- Days from the zero time (January 1 of year 1) to the given civil date. -/
def daysFromCivil (y m d : Nat) : Nat :=
  365 * (y - 1) + (y - 1) / 4 - (y - 1) / 100 + (y - 1) / 400
    + daysBefore (m - 1) + (if 2 < m ∧ isLeap y then 1 else 0) + (d - 1)

/-- Seconds from the zero time to the given civil date and time of day. -/
def civilSec (y m d h mi s : Nat) : Nat :=
  86400 * daysFromCivil y m d + 3600 * h + 60 * mi + s

/-- Parse the timezone suffix of an RFC3339 timestamp: `Z`, or a signed
`hh:mm` offset.  Returns the offset in seconds. -/
def parseOffset (rest : List Char) : Option Int :=
  match rest with
  | ['Z'] => some 0
  | [sg, o1, o2, c, o3, o4] =>
    if (sg = '+' ∨ sg = '-') ∧ c = ':' then
      match digit2 o1 o2, digit2 o3 o4 with
      | some oh, some om =>
        if oh ≤ 23 ∧ om ≤ 59 then
          some (if sg = '+' then ((3600 * oh + 60 * om : Nat) : Int)
                else -((3600 * oh + 60 * om : Nat) : Int))
        else none
      | _, _ => none
    else none
  | _ => none

/-- Model of Go `time.Parse(time.RFC3339, s)` for whole-second timestamps of
years ≥ 1 (the program's data carries no fractional seconds): layout
`yyyy-mm-ddThh:mm:ss` followed by `Z` or a `±hh:mm` offset, with the same
range checks Go performs.  Failure is `none`; Go additionally returns the
zero time alongside its error. -/
def parseRFC3339 (s : String) : Option GoTime :=
  match s.data with
  | y1 :: y2 :: y3 :: y4 :: c1 :: m1 :: m2 :: c2 :: d1 :: d2 :: ct ::
      h1 :: h2 :: c3 :: mi1 :: mi2 :: c4 :: s1 :: s2 :: rest =>
    if c1 = '-' ∧ c2 = '-' ∧ ct = 'T' ∧ c3 = ':' ∧ c4 = ':' then
      match digit4 y1 y2 y3 y4, digit2 m1 m2, digit2 d1 d2,
        digit2 h1 h2, digit2 mi1 mi2, digit2 s1 s2, parseOffset rest with
      | some y, some mo, some d, some h, some mi, some sec, some off =>
        if 1 ≤ y ∧ 1 ≤ mo ∧ mo ≤ 12 ∧ 1 ≤ d ∧ d ≤ daysInMonth y mo ∧
            h ≤ 23 ∧ mi ≤ 59 ∧ sec ≤ 59 then
          some { sec := Int.toNat ((civilSec y mo d h mi sec : Int) - off), off := off }
        else none
      | _, _, _, _, _, _, _ => none
    else none
  | _ => none

/-- The timestamp the program effectively uses for a record: `time.Parse` is
called and its error discarded (the TODO branches in the sort comparator and
the bare `_` in the min/max reads), so an unparseable timestamp becomes the
zero time. -/
def effTime (r : MonitorData) : GoTime := (parseRFC3339 r.Timestamp).getD zeroTime

/-- Absolute seconds of the timestamp the program effectively uses. -/
def effSec (r : MonitorData) : Nat := (effTime r).sec

/-- Decimal digit character for n mod 10. -/
def digitChar (n : Nat) : Char := Char.ofNat (48 + n % 10)

/-- Two-digit zero-padded decimal rendering. -/
def pad2 (n : Nat) : String := String.mk [digitChar (n / 10), digitChar n]

/-- Four-digit zero-padded decimal rendering. -/
def pad4 (n : Nat) : String :=
  String.mk [digitChar (n / 1000), digitChar (n / 100), digitChar (n / 10), digitChar n]

/-- Year and zero-based day-of-year from a count of days since the zero time,
following Go's absDate (400/100/4/1-year cycle arithmetic; the `min _ 3`
steps are Go's `n -= n >> 2` corrections). -/
def yearFromDays (d0 : Nat) : Nat × Nat :=
  let n400 := d0 / 146097
  let r1 := d0 % 146097
  let n100 := min (r1 / 36524) 3
  let r2 := r1 - 36524 * n100
  let n4 := r2 / 1461
  let r3 := r2 % 1461
  let n1 := min (r3 / 365) 3
  let r4 := r3 - 365 * n1
  (400 * n400 + 100 * n100 + 4 * n4 + n1 + 1, r4)

/-- Month (1-based) and day of month from the leap flag and the zero-based
day of year, following Go's absDate. -/
def monthFromYday (leap : Bool) (yday : Nat) : Nat × Nat :=
  if leap ∧ yday = 59 then (2, 29)
  else
    let d := if leap ∧ 59 < yday then yday - 1 else yday
    let m0 := d / 31
    let m := if daysBefore (m0 + 1) ≤ d then m0 + 1 else m0
    (m + 1, d - daysBefore m + 1)

/-- RFC3339 timezone suffix: `Z` for offset 0, signed `hh:mm` otherwise. -/
def fmtOffset (off : Int) : String :=
  if off = 0 then "Z"
  else
    (if 0 < off then "+" else "-") ++ pad2 (off.natAbs / 3600) ++ ":"
      ++ pad2 (off.natAbs % 3600 / 60)

/-- Model of Go `t.Format(time.RFC3339)`: the wall-clock fields are the
absolute time shifted by the kept zone offset, rendered with that offset's
suffix. -/
def fmtRFC3339 (t : GoTime) : String :=
  let wall := Int.toNat ((t.sec : Int) + t.off)
  let days := wall / 86400
  let rem := wall % 86400
  let yd := yearFromDays days
  let md := monthFromYday (isLeap yd.1) yd.2
  pad4 yd.1 ++ "-" ++ pad2 md.1 ++ "-" ++ pad2 md.2 ++ "T"
    ++ pad2 (rem / 3600) ++ ":" ++ pad2 (rem % 3600 / 60) ++ ":" ++ pad2 (rem % 60)
    ++ fmtOffset t.off

/-- The S3 key the program builds from an owner, a monitor and the rendered
slot start string. -/
def filenameOf (orgId monitorId startStr : String) : String :=
  orgId ++ "/" ++ monitorId ++ "/" ++ startStr ++ "-data.json"

/-- The S3 key as the program derives it: the slot start time rendered in
RFC3339 with the slot's kept zone offset. -/
def filename (orgId monitorId : String) (slotStartTime : GoTime) : String :=
  filenameOf orgId monitorId (fmtRFC3339 slotStartTime)

/-- One slot's record bucket: the records of the (sorted) group whose
effective timestamp is strictly after the slot start and strictly before the
slot end (the program tests `After(slotStartTime) && Before(splitTime)`). -/
def bucketRecords (dataArray : List MonitorData) (slotStart : Nat) : List MonitorData :=
  dataArray.filter (fun r =>
    decide (slotStart < effSec r ∧ effSec r < slotStart + FILE_DURATION))

/-- compileAndStoreinS3 up to the sink call: for an empty bucket it returns
immediately and nothing is persisted (`none`); otherwise it builds the
artifact from the bucket (org and monitor ids from the bucket's first record,
entries in bucket order) and the key it is put under. -/
def compileAndStoreinS3 (splitDataArray : List MonitorData) (slotStartTime : GoTime) :
    Option (String × CompiledMonitorData) :=
  match splitDataArray with
  | [] => none
  | d0 :: _ =>
    some (filename d0.OrgId d0.MonitorId slotStartTime,
      { MonitorId := d0.MonitorId, OrgId := d0.OrgId,
        StartTime := fmtRFC3339 slotStartTime,
        Entries := splitDataArray.map (fun d =>
          { Timestamp := d.Timestamp, Values := d.Values }) })

/-- compileMonitorData after its sort: read the first and last effective
timestamps, build the slot starts, bucket the records per slot, and compile
and store each non-empty bucket.  Slot start times keep the zone offset of
the first record's parsed timestamp (Go's Round and Add preserve the
location).  The program never calls this with an empty group. -/
def compileMonitorDataArtifacts (dataArray : List MonitorData) :
    List (String × CompiledMonitorData) :=
  match dataArray with
  | [] => []
  | d0 :: rest =>
    let firstTimestamp := effTime d0
    let lastTimestamp := effTime (List.getLastD (d0 :: rest) d0)
    let starts := planStarts firstTimestamp.sec lastTimestamp.sec FILE_DURATION
    starts.filterMap (fun s =>
      compileAndStoreinS3 (bucketRecords (d0 :: rest) s)
        { sec := s, off := firstTimestamp.off })

/-- What the program's `sort.Slice` call guarantees for its output: a
permutation of the group that is sorted by the effective timestamps (the
comparator parses both timestamps, ignoring parse errors, and compares with
`Before`).  `sort.Slice` is documented as not stable, so any such output is a
possible result. -/
def goSorted (l out : List MonitorData) : Prop :=
  List.Perm l out ∧ List.Pairwise (fun a b => effSec a ≤ effSec b) out

instance (l out : List MonitorData) : Decidable (goSorted l out) :=
  inferInstanceAs (Decidable (_ ∧ _))

/-- HandleRequest's grouping of the fetched records by monitor id (insertion
order of first appearance; each group keeps fetch order). -/
def groupByMonitorId (l : List MonitorData) : List (String × List MonitorData) :=
  l.foldl (fun acc d =>
    if acc.any (fun p => p.1 == d.MonitorId) then
      acc.map (fun p => if p.1 == d.MonitorId then (p.1, p.2 ++ [d]) else p)
    else acc ++ [(d.MonitorId, [d])]) []

/-- The per-artifact persist outcomes for a sink that succeeds on the keys
where `sinkOk` is true.  The program only logs a failed PutObject and
returns from the goroutine; the outcome reaches no caller. -/
def putOutcomes (sinkOk : String → Bool) (artifacts : List (String × CompiledMonitorData)) :
    List Bool :=
  artifacts.map (fun a => sinkOk a.1)

/-- HandleRequest: the fetch error is never checked (on failure the record
slice is nil and the loop body never runs), the per-group compile results and
persist outcomes are discarded (the goroutines return nothing), and the
function always returns `("Hello " ++ name, nil)`.  `sortFn` stands for
whatever ordering `sort.Slice` produced for each group. -/
def handleRequest (name : String) (fetchResult : Except String (List MonitorData))
    (sortFn : List MonitorData → List MonitorData) (sinkOk : String → Bool) :
    String × Option String :=
  let allMonitorData := match fetchResult with
    | Except.ok rs => rs
    | Except.error _ => []
  let groups := groupByMonitorId allMonitorData
  let _outcomes := groups.map (fun g =>
    putOutcomes sinkOk (compileMonitorDataArtifacts (sortFn g.2)))
  ("Hello " ++ name, none)

/-- A JSON field value at the granularity the claims need: a string, or the
opaque values object. -/
inductive JField where
  | str (s : String)
  | obj (kvs : List (String × String))
deriving DecidableEq

/-- The JSON object `json.Marshal` produces for an Entry, as the struct tags
dictate: the Timestamp field under `timestamp`, and the Values field under
`monitorId` (the tag on Values reads `monitorId`). -/
def marshalEntry (e : Entry) : List (String × JField) :=
  [("timestamp", JField.str e.Timestamp), ("monitorId", JField.obj e.Values)]

/-- A record with the given raw timestamp for the fixed owner `o` and
monitor `m` and an empty payload. -/
def mkRec (ts : String) : MonitorData :=
  { MonitorId := "m", Timestamp := ts, OrgId := "o", Values := [] }

/-- A sorted batch with a record at 00:02, one exactly on the 00:05 slot
boundary, and one at 00:07 (all on 2026-01-01, UTC). -/
def c1Input : List MonitorData :=
  [mkRec "2026-01-01T00:02:00Z", mkRec "2026-01-01T00:05:00Z",
    mkRec "2026-01-01T00:07:00Z"]

/-- A batch holding a single record exactly on a 5-minute boundary. -/
def c2Input : List MonitorData := [mkRec "2026-01-01T00:05:00Z"]

/-- A record whose timestamp does not parse. -/
def c6bad : MonitorData := mkRec "not-a-timestamp"

/-- Two records sharing a timestamp but with different payloads. -/
def c5recA : MonitorData :=
  { MonitorId := "m", Timestamp := "2026-01-01T00:01:00Z", OrgId := "o",
    Values := [("v", "1")] }

/-- Second record of the tied pair, same timestamp, different payload. -/
def c5recB : MonitorData :=
  { MonitorId := "m", Timestamp := "2026-01-01T00:01:00Z", OrgId := "o",
    Values := [("v", "2")] }

/-- Two records with distinct timestamps, listed out of order. -/
def c5wIn : List MonitorData :=
  [mkRec "2026-01-01T00:02:00Z", mkRec "2026-01-01T00:01:00Z"]

/-- The sorted ordering of `c5wIn`. -/
def c5wOut : List MonitorData :=
  [mkRec "2026-01-01T00:01:00Z", mkRec "2026-01-01T00:02:00Z"]

/-- A record at 00:02 UTC written with the `Z` suffix. -/
def c9recZ : MonitorData := mkRec "2026-01-01T00:02:00Z"

/-- A record denoting the same instant as `c9recZ`, written with a +02:00
offset. -/
def c9recP : MonitorData := mkRec "2026-01-01T02:02:00+02:00"

/- ------------------------------------------------------------------ -/
/- Helper lemmas about the rounding arithmetic and the slot loop.      -/
/- ------------------------------------------------------------------ -/

theorem roundedDown_eq (t D : Nat) (hD : 0 < D) :
    roundedDownStartTime t D = alignedStart t D := by
  have hqr : t / D * D + t % D = t := by
    rw [Nat.mul_comm]; exact Nat.div_add_mod t D
  have hr : t % D < D := Nat.mod_lt t hD
  unfold roundedDownStartTime goRound alignedStart
  rw [add_one_mul]
  generalize t / D * D = A at hqr ⊢
  split_ifs <;> omega

theorem roundedUp_eq (t D : Nat) (hD : 0 < D) :
    roundedUpEndTime t D = alignedCeil t D := by
  have hqr : t / D * D + t % D = t := by
    rw [Nat.mul_comm]; exact Nat.div_add_mod t D
  have hr : t % D < D := Nat.mod_lt t hD
  unfold roundedUpEndTime goRound alignedCeil
  rw [add_one_mul]
  generalize t / D * D = A at hqr ⊢
  split_ifs <;> omega

theorem alignedStart_le (t D : Nat) : alignedStart t D ≤ t :=
  Nat.div_mul_le_self t D

theorem alignedStart_mod (t D : Nat) : alignedStart t D % D = 0 :=
  Nat.mul_mod_left (t / D) D

theorem alignedStart_greatest (t D a : Nat) (ha : a % D = 0) (hat : a ≤ t) :
    a ≤ alignedStart t D := by
  have hdvd : D ∣ a := Nat.dvd_of_mod_eq_zero ha
  calc a = a / D * D := (Nat.div_mul_cancel hdvd).symm
    _ ≤ t / D * D := Nat.mul_le_mul_right D (Nat.div_le_div_right hat)

theorem le_alignedCeil (t D : Nat) (hD : 0 < D) : t ≤ alignedCeil t D := by
  have hqr : t / D * D + t % D = t := by
    rw [Nat.mul_comm]; exact Nat.div_add_mod t D
  have hr : t % D < D := Nat.mod_lt t hD
  unfold alignedCeil
  rw [add_one_mul]
  generalize t / D * D = A at hqr ⊢
  split_ifs <;> omega

theorem alignedCeil_mod (t D : Nat) : alignedCeil t D % D = 0 := by
  unfold alignedCeil
  split_ifs with h
  · exact h
  · exact Nat.mul_mod_left (t / D + 1) D

theorem alignedCeil_least (t D a : Nat) (hD : 0 < D) (ha : a % D = 0)
    (hta : t ≤ a) : alignedCeil t D ≤ a := by
  unfold alignedCeil
  split_ifs with h
  · exact hta
  · have hdvd : D ∣ a := Nat.dvd_of_mod_eq_zero ha
    have haq : a / D * D = a := Nat.div_mul_cancel hdvd
    have hlt : t / D < a / D := by
      rcases Nat.lt_or_ge (t / D) (a / D) with hc | hc
      · exact hc
      · exfalso
        have h1 : a / D ≤ t / D := hc
        have h2 : a ≤ t / D * D := by
          calc a = a / D * D := haq.symm
            _ ≤ t / D * D := Nat.mul_le_mul_right D h1
        have h3 : t / D * D ≤ t := Nat.div_mul_le_self t D
        have h4 : t = t / D * D := le_antisymm (le_trans hta h2) h3
        have h5 : t % D = 0 := by
          have := Nat.div_add_mod t D
          have hcomm : t / D * D + t % D = t := by
            rw [Nat.mul_comm]; exact this
          omega
        exact h h5
    calc (t / D + 1) * D ≤ a / D * D := Nat.mul_le_mul_right D hlt
      _ = a := haq

theorem alignedStart_le_alignedCeil (minT maxT D : Nat) (hD : 0 < D)
    (hle : minT ≤ maxT) : alignedStart minT D ≤ alignedCeil maxT D :=
  le_trans (alignedStart_le minT D) (le_trans hle (le_alignedCeil maxT D hD))

theorem splitTimesAux_formula (D : Nat) (hD : 0 < D) :
    ∀ n s e, e + 1 - s ≤ n → D ≤ s →
      splitTimesAux D s e n =
        (List.range (if s ≤ e then (e - s) / D + 1 else 0)).map
          (fun i => s - D + i * D) := by
  intro n
  induction n with
  | zero =>
    intro s e hn hs
    have hse : ¬ s ≤ e := by omega
    rw [splitTimesAux]
    simp [hse]
  | succ n ih =>
    intro s e hn hs
    rw [splitTimesAux]
    by_cases hse : s ≤ e
    · rw [if_pos ⟨hD, hse⟩, if_pos hse]
      rw [ih (s + D) e (by omega) (by omega)]
      by_cases hse2 : s + D ≤ e
      · rw [if_pos hse2]
        have hstep : (e - s) / D = (e - (s + D)) / D + 1 := by
          have h1 : (e - s) / D = (e - s - D) / D + 1 :=
            Nat.div_eq_sub_div hD (by omega)
          have h2 : e - s - D = e - (s + D) := by omega
          rw [h1, h2]
        rw [hstep]
        conv_rhs => rw [List.range_succ_eq_map]
        simp only [List.map_cons, List.map_map]
        congr 1
        · omega
        · apply List.map_congr_left
          intro i _
          simp only [Function.comp, Nat.succ_eq_add_one]
          have h3 : (i + 1) * D = i * D + D := add_one_mul i D
          omega
      · rw [if_neg hse2]
        have hdiv : (e - s) / D = 0 := Nat.div_eq_of_lt (by omega)
        rw [hdiv]
        simp [List.range_succ]
    · rw [if_neg (by tauto), if_neg hse]
      simp

theorem planStarts_formula (minT maxT D : Nat) (hD : 0 < D) (hle : minT ≤ maxT) :
    planStarts minT maxT D =
      (List.range ((alignedCeil maxT D - alignedStart minT D) / D)).map
        (fun i => alignedStart minT D + i * D) := by
  have hf := roundedDown_eq minT D hD
  have hc := roundedUp_eq maxT D hD
  have hfc : alignedStart minT D ≤ alignedCeil maxT D :=
    alignedStart_le_alignedCeil minT maxT D hD hle
  have hdvd : D ∣ (alignedCeil maxT D - alignedStart minT D) :=
    Nat.dvd_sub' (Nat.dvd_of_mod_eq_zero (alignedCeil_mod maxT D))
      (Nat.dvd_of_mod_eq_zero (alignedStart_mod minT D))
  unfold planStarts
  rw [hf, hc]
  rw [splitTimes]
  rw [splitTimesAux_formula D hD _ _ _ (by omega) (by omega)]
  have hcount : (if alignedStart minT D + D ≤ alignedCeil maxT D then
      (alignedCeil maxT D - (alignedStart minT D + D)) / D + 1 else 0) =
      (alignedCeil maxT D - alignedStart minT D) / D := by
    by_cases hbig : alignedStart minT D + D ≤ alignedCeil maxT D
    · rw [if_pos hbig]
      have h1 : (alignedCeil maxT D - alignedStart minT D) / D =
          (alignedCeil maxT D - alignedStart minT D - D) / D + 1 :=
        Nat.div_eq_sub_div hD (by omega)
      have h2 : alignedCeil maxT D - alignedStart minT D - D =
          alignedCeil maxT D - (alignedStart minT D + D) := by omega
      rw [h1, h2]
    · rw [if_neg hbig]
      obtain ⟨k, hk⟩ := hdvd
      have hk0 : k = 0 := by
        rcases Nat.eq_zero_or_pos k with h0 | h0
        · exact h0
        · exfalso
          have : D ≤ D * k := Nat.le_mul_of_pos_right D h0
          omega
      rw [hk, hk0]
      simp
  rw [hcount]
  apply List.map_congr_left
  intro i _
  omega

/- ------------------------------------------------------------------ -/
/- Claim theorems.                                                     -/
/- ------------------------------------------------------------------ -/

/-- C7: for every timestamp t and positive window duration D, the program's
window-start computation — round t to the nearest multiple of D, then
subtract D if the rounded value lies after t — equals direct floor alignment
alignedStart(t) = floor(t / D) * D. -/
theorem c7_round_then_correct_is_floor (t D : Nat) (hD : 0 < D) :
    roundedDownStartTime t D = alignedStart t D :=
  roundedDown_eq t D hD

/-- C7 witness: the equivalence evaluated at t = 433, D = 300. -/
theorem c7_witness :
    (0 : Nat) < 300 ∧ roundedDownStartTime 433 300 = alignedStart 433 300 :=
  ⟨by decide, c7_round_then_correct_is_floor 433 300 (by decide)⟩

/-- C8: a window whose assigned record sequence is empty produces no artifact
and nothing is persisted: compileAndStoreinS3 returns before building an
artifact or touching the sink. -/
theorem c8_empty_bucket_no_artifact (slotStartTime : GoTime) :
    compileAndStoreinS3 [] slotStartTime = none := rfl

/-- C3 is false of the code: HandleRequest ignores the error returned by the
record fetch, the goroutines discard every persist outcome, and the function
returns `("Hello " ++ name, nil)` whatever the fetch result and however many
sink puts fail — no ArchiveResult, per-entity counts or failure list exists.
This theorem shows the returned value is the same under any two sinks (so a
SinkError is invisible to the caller) and carries no error even when the
fetch itself failed. -/
theorem c3_errors_never_surfaced (name : String)
    (fetchResult : Except String (List MonitorData))
    (sortFn : List MonitorData → List MonitorData) (sinkOk1 sinkOk2 : String → Bool) :
    handleRequest name fetchResult sortFn sinkOk1 = ("Hello " ++ name, none) ∧
    handleRequest name fetchResult sortFn sinkOk1
      = handleRequest name fetchResult sortFn sinkOk2 := by
  constructor <;> rfl

/-- C1 is false of the code: the bucket filter keeps a record only if its
timestamp is strictly after the slot start and strictly before the slot end
(`After && Before`), so a record exactly on a window boundary belongs to no
bucket at all.  For the sorted batch 00:02 / 00:05 / 00:07 the plan is the
two windows starting 00:00 and 00:05, yet the artifacts' entries are only
the 00:02 and 00:07 records — the boundary record 00:05 is silently dropped,
so the buckets do not partition the input. -/
theorem c1_boundary_record_in_no_bucket :
    goSorted c1Input c1Input ∧
    (planStarts (effSec (mkRec "2026-01-01T00:02:00Z"))
        (effSec (mkRec "2026-01-01T00:07:00Z")) FILE_DURATION).length = 2 ∧
    ((compileMonitorDataArtifacts c1Input).map
        (fun p => p.2.Entries.map Entry.Timestamp)).flatten
      = ["2026-01-01T00:02:00Z", "2026-01-01T00:07:00Z"] := by decide

/-- C2 is false of the code: the slot loop runs while `splitTime ≤
roundedUpEndTime`, and for a single record exactly on an aligned boundary
(spec scenario B: 00:05:00 with a 5-minute window) the rounded-up end equals
the timestamp itself, so the loop never runs — the plan has zero windows,
not the one window [00:05,00:10) the claim requires, and the record is never
archived. -/
theorem c2_aligned_single_record_gets_no_window :
    planStarts (effSec (mkRec "2026-01-01T00:05:00Z"))
        (effSec (mkRec "2026-01-01T00:05:00Z")) FILE_DURATION = [] ∧
      compileMonitorDataArtifacts c2Input = [] := by decide

/-- C6 is false of the code: `time.Parse` errors are discarded (the
comparator's TODO branches and the bare `_` reads), so a record whose
timestamp cannot be parsed is treated as the zero time — here it silently
produces no artifact and no error value of any kind, instead of being
rejected with InvalidInputError. -/
theorem c6_unparseable_timestamp_silently_accepted :
    parseRFC3339 c6bad.Timestamp = none ∧ effSec c6bad = 0 ∧
      compileMonitorDataArtifacts [c6bad] = [] := by decide

/-- C4 is false of the code in its coverage part: the plan's last window end
is the smallest aligned boundary ≥ the maximum timestamp (the rounded-up
end), not alignedStart(max) + D.  With min = 480, max = 600, D = 300 the
plan is the single window [300, 600); the point 600 lies inside the claimed
covered interval [alignedStart(480), alignedStart(600) + 300) = [300, 900)
but inside no window of the plan. -/
theorem c4_counterexample_coverage_stops_at_ceiling :
    planStarts 480 600 300 = [300] ∧
    alignedStart 480 300 = 300 ∧ alignedStart 600 300 + 300 = 900 ∧
    ((300 : Nat) ≤ 600 ∧ (600 : Nat) < 900) ∧
    ¬ ∃ s ∈ planStarts 480 600 300, s ≤ 600 ∧ 600 < s + 300 := by decide

theorem progression_adjacent (F D K i s1 s2 : Nat)
    (hg1 : ((List.range K).map (fun j => F + j * D))[i]? = some s1)
    (hg2 : ((List.range K).map (fun j => F + j * D))[i + 1]? = some s2) :
    s2 = s1 + D := by
  rw [List.getElem?_map] at hg1 hg2
  have hb1 : i < K := by
    cases hr : (List.range K)[i]? with
    | none => rw [hr] at hg1; simp at hg1
    | some j =>
      have := (List.getElem?_eq_some.mp hr).1
      simpa using this
  have hb2 : i + 1 < K := by
    cases hr : (List.range K)[i + 1]? with
    | none => rw [hr] at hg2; simp at hg2
    | some j =>
      have := (List.getElem?_eq_some.mp hr).1
      simpa using this
  rw [List.getElem?_range hb1] at hg1
  rw [List.getElem?_range hb2] at hg2
  simp at hg1 hg2
  have hmul : (i + 1) * D = i * D + D := add_one_mul i D
  omega

/-- C4 amended: for every positive duration D and min ≤ max, the plan is the
arithmetic progression from alignedStart(min) stepping by D up to the
rounded-up end; its windows are strictly increasing, adjacent starts differ
by exactly D (contiguous windows of length D), a non-empty plan starts at
the greatest D-aligned boundary ≤ min, the rounded-up end is the least
D-aligned boundary ≥ max, a timestamp is covered by some window exactly when
it lies in [alignedStart(min), alignedCeil(max)), and the plan is empty
exactly when those two boundaries coincide (so the claimed coverage up to
alignedStart(max) + D fails when max is aligned). -/
theorem c4_plan_invariants (minT maxT D : Nat) (hD : 0 < D) (hle : minT ≤ maxT) :
    planStarts minT maxT D
      = (List.range ((alignedCeil maxT D - alignedStart minT D) / D)).map
        (fun i => alignedStart minT D + i * D) ∧
    List.Pairwise (fun a b => a < b) (planStarts minT maxT D) ∧
    (∀ i s1 s2, (planStarts minT maxT D)[i]? = some s1 →
      (planStarts minT maxT D)[i + 1]? = some s2 → s2 = s1 + D) ∧
    (planStarts minT maxT D ≠ [] →
      (planStarts minT maxT D).head? = some (alignedStart minT D)) ∧
    (alignedStart minT D ≤ minT ∧ alignedStart minT D % D = 0 ∧
      ∀ a, a % D = 0 → a ≤ minT → a ≤ alignedStart minT D) ∧
    (maxT ≤ alignedCeil maxT D ∧ alignedCeil maxT D % D = 0 ∧
      ∀ a, a % D = 0 → maxT ≤ a → alignedCeil maxT D ≤ a) ∧
    (∀ t, (alignedStart minT D ≤ t ∧ t < alignedCeil maxT D) ↔
      ∃ s ∈ planStarts minT maxT D, s ≤ t ∧ t < s + D) ∧
    (planStarts minT maxT D = [] ↔ alignedCeil maxT D = alignedStart minT D) := by
  have hform := planStarts_formula minT maxT D hD hle
  have hFC : alignedStart minT D ≤ alignedCeil maxT D :=
    alignedStart_le_alignedCeil minT maxT D hD hle
  have hdvd : D ∣ (alignedCeil maxT D - alignedStart minT D) :=
    Nat.dvd_sub' (Nat.dvd_of_mod_eq_zero (alignedCeil_mod maxT D))
      (Nat.dvd_of_mod_eq_zero (alignedStart_mod minT D))
  have hK : (alignedCeil maxT D - alignedStart minT D) / D * D
      = alignedCeil maxT D - alignedStart minT D := Nat.div_mul_cancel hdvd
  have hCK : alignedCeil maxT D = alignedStart minT D
      + (alignedCeil maxT D - alignedStart minT D) / D * D := by omega
  refine ⟨hform, ?_, ?_, ?_, ?_, ?_, ?_, ?_⟩
  · rw [hform, List.pairwise_map]
    have hbase : List.Pairwise (fun a b => a < b)
        (List.range ((alignedCeil maxT D - alignedStart minT D) / D)) :=
      List.pairwise_lt_range _
    exact hbase.imp (fun hij =>
      Nat.add_lt_add_left (Nat.mul_lt_mul_of_pos_right hij hD) _)
  · intro i s1 s2 hg1 hg2
    rw [hform] at hg1 hg2
    exact progression_adjacent _ D _ i s1 s2 hg1 hg2
  · intro hne
    rw [hform] at hne ⊢
    cases hk : (alignedCeil maxT D - alignedStart minT D) / D with
    | zero =>
      exfalso
      apply hne
      rw [hk]
      simp
    | succ k =>
      rw [List.range_succ_eq_map]
      simp
  · exact ⟨alignedStart_le minT D, alignedStart_mod minT D,
      fun a ha hat => alignedStart_greatest minT D a ha hat⟩
  · exact ⟨le_alignedCeil maxT D hD, alignedCeil_mod maxT D,
      fun a ha hta => alignedCeil_least maxT D a hD ha hta⟩
  · intro t
    constructor
    · rintro ⟨ht1, ht2⟩
      have hdm : (t - alignedStart minT D) / D * D + (t - alignedStart minT D) % D
          = t - alignedStart minT D := by
        rw [Nat.mul_comm]; exact Nat.div_add_mod _ D
      have hmod : (t - alignedStart minT D) % D < D := Nat.mod_lt _ hD
      rw [hform]
      refine ⟨alignedStart minT D + (t - alignedStart minT D) / D * D,
        List.mem_map_of_mem _ (List.mem_range.mpr ?_), by omega, by omega⟩
      rw [Nat.div_lt_iff_lt_mul hD]
      omega
    · rw [hform]
      rintro ⟨s, hsmem, hst, hts⟩
      obtain ⟨i, hi, rfl⟩ := List.mem_map.mp hsmem
      have hiK : i < (alignedCeil maxT D - alignedStart minT D) / D :=
        List.mem_range.mp hi
      have hmul : (i + 1) * D ≤ (alignedCeil maxT D - alignedStart minT D) / D * D :=
        Nat.mul_le_mul_right D (by omega)
      have hmul2 : (i + 1) * D = i * D + D := add_one_mul i D
      constructor
      · omega
      · omega
  · rw [hform]
    constructor
    · intro hnil
      have hk0 : (alignedCeil maxT D - alignedStart minT D) / D = 0 := by
        by_contra hc
        rw [List.map_eq_nil, List.range_eq_nil] at hnil
        exact hc hnil
      rw [hk0, Nat.zero_mul] at hK
      omega
    · intro hCF
      have hk0 : (alignedCeil maxT D - alignedStart minT D) / D = 0 := by
        have h0 : (alignedCeil maxT D - alignedStart minT D) / D * D = 0 := by omega
        rcases Nat.mul_eq_zero.mp h0 with h | h
        · exact h
        · omega
      rw [hk0]
      simp

/-- C4 witness: the amended invariants applied at min = 130, max = 700,
D = 300 (plan [0, 300, 600]). -/
theorem c4_witness :
    (0 : Nat) < 300 ∧ (130 : Nat) ≤ 700 ∧
      List.Pairwise (fun a b => a < b) (planStarts 130 700 300) :=
  ⟨by decide, by decide, (c4_plan_invariants 130 700 300 (by decide) (by decide)).2.1⟩

/-- C5 is false of the code: the sort is `sort.Slice`, documented as not
stable, so its contract only guarantees a sorted permutation.  For two
records sharing a timestamp but differing in payload, both orders are valid
sort outputs of the same input set, and they compile to different artifact
entry sequences — the output is not determined by the input set and its
permutation class. -/
theorem c5_counterexample_tied_timestamps :
    goSorted [c5recA, c5recB] [c5recA, c5recB] ∧
    goSorted [c5recA, c5recB] [c5recB, c5recA] ∧
    compileMonitorDataArtifacts [c5recA, c5recB]
      ≠ compileMonitorDataArtifacts [c5recB, c5recA] := by decide

/-- C5 amended: when the records' effective timestamps are pairwise
distinct, the sorted permutation is unique, so any two outputs the sort
contract allows — for any two permutations of the input — compile to
identical artifact sequences; with tied timestamps the tie order, and hence
the byte-for-byte output, is unspecified. -/
theorem c5_deterministic_for_distinct_timestamps
    (l out1 out2 : List MonitorData)
    (hdist : List.Pairwise (fun a b => effSec a ≠ effSec b) l)
    (h1 : goSorted l out1) (h2 : goSorted l out2) :
    compileMonitorDataArtifacts out1 = compileMonitorDataArtifacts out2 := by
  have hd1 : List.Pairwise (fun a b => effSec a ≠ effSec b) out1 :=
    (List.Perm.pairwise_iff (fun hab he => hab he.symm) h1.1).mp hdist
  have hd2 : List.Pairwise (fun a b => effSec a ≠ effSec b) out2 :=
    (List.Perm.pairwise_iff (fun hab he => hab he.symm) h2.1).mp hdist
  have hs1 : List.Pairwise (fun a b : MonitorData => effSec a < effSec b) out1 :=
    (h1.2.and hd1).imp (fun h => lt_of_le_of_ne h.1 h.2)
  have hs2 : List.Pairwise (fun a b : MonitorData => effSec a < effSec b) out2 :=
    (h2.2.and hd2).imp (fun h => lt_of_le_of_ne h.1 h.2)
  have hperm : List.Perm out1 out2 := h1.1.symm.trans h2.1
  have heq : out1 = out2 := by
    have hanti : IsAntisymm MonitorData (fun a b => effSec a < effSec b) :=
      ⟨fun a b hab hba => absurd hba (Nat.lt_asymm hab)⟩
    exact @List.eq_of_perm_of_sorted MonitorData _ hanti _ _ hperm hs1 hs2
  rw [heq]

/-- C5 witness: the amended determinism applied to a two-record batch with
distinct timestamps, listed out of order, and its unique sorted output. -/
theorem c5_witness :
    List.Pairwise (fun a b => effSec a ≠ effSec b) c5wIn ∧
      compileMonitorDataArtifacts c5wOut = compileMonitorDataArtifacts c5wOut :=
  ⟨by decide, c5_deterministic_for_distinct_timestamps c5wIn c5wOut c5wOut
    (by decide) (by decide) (by decide)⟩

theorem stringDataInj (s t : String) (h : s.data = t.data) : s = t := by
  cases s
  cases t
  exact congrArg String.mk h

theorem append_slash_inj (s1 : List Char) :
    ∀ s2 t1 t2 : List Char, ('/' : Char) ∉ s1 → ('/' : Char) ∉ s2 →
      s1 ++ '/' :: t1 = s2 ++ '/' :: t2 → s1 = s2 ∧ t1 = t2 := by
  induction s1 with
  | nil =>
    intro s2 t1 t2 _ h2 heq
    cases s2 with
    | nil => simpa using heq
    | cons c cs =>
      exfalso
      have hc : '/' = c := by
        have := congrArg (fun l => List.head? l) heq
        simpa using this
      exact h2 (by rw [← hc]; exact List.mem_cons_self '/' cs)
  | cons c cs ih =>
    intro s2 t1 t2 h1 h2 heq
    cases s2 with
    | nil =>
      exfalso
      have hc : c = '/' := by
        have := congrArg (fun l => List.head? l) heq
        simpa using this
      exact h1 (by rw [← hc]; exact List.mem_cons_self c cs)
    | cons d ds =>
      have hcd : c = d := by
        have := congrArg (fun l => List.head? l) heq
        simpa using this
      have hrest : cs ++ '/' :: t1 = ds ++ '/' :: t2 := by
        have := congrArg List.tail heq
        simpa using this
      have hih := ih ds t1 t2 (fun hm => h1 (List.mem_cons_of_mem c hm))
        (fun hm => h2 (List.mem_cons_of_mem d hm)) hrest
      exact ⟨by rw [hcd, hih.1], hih.2⟩

/-- C9 is false of the code: the key is not a function of (ownerId,
entityId, window start) alone.  The slot start time keeps the zone offset of
the bucket's first record, and `Format(RFC3339)` renders that offset, so two
batches denoting the same instant — `00:02Z` versus `02:02+02:00` — yield
the same window start instant but two different keys for the same entity and
owner. -/
theorem c9_counterexample_offset_changes_key :
    effSec c9recZ = effSec c9recP ∧
    (compileMonitorDataArtifacts [c9recZ]).map Prod.fst
      = ["o/m/2026-01-01T00:00:00Z-data.json"] ∧
    (compileMonitorDataArtifacts [c9recP]).map Prod.fst
      = ["o/m/2026-01-01T02:00:00+02:00-data.json"] := by decide

/-- C9 amended: the key is a deterministic function of (ownerId, entityId,
rendered window-start string) — `filename` is exactly `filenameOf` applied
to the RFC3339 rendering — and for a fixed owner the key determines the
entity id and the rendered start (renderings contain no slash), so distinct
entities or distinct renderings give distinct keys; but the rendering
depends on the first record's zone offset, so the same window instant can
map to different keys across invocations. -/
theorem c9_key_deterministic_and_injective (o m1 m2 s1 s2 : String)
    (h1 : ('/' : Char) ∉ s1.data) (h2 : ('/' : Char) ∉ s2.data)
    (heq : filenameOf o m1 s1 = filenameOf o m2 s2) :
    m1 = m2 ∧ s1 = s2 ∧
      ∀ t : GoTime, filename o m1 t = filenameOf o m1 (fmtRFC3339 t) := by
  have hd := congrArg String.data heq
  simp only [filenameOf, String.data_append, List.append_assoc,
    List.singleton_append] at hd
  have hd1 := List.append_cancel_left hd
  have hd2 := congrArg List.tail hd1
  simp only [List.tail_cons] at hd2
  simp only [← List.cons_append, ← List.append_assoc] at hd2
  have hd3 := List.append_cancel_right hd2
  have hrev := congrArg List.reverse hd3
  simp only [List.append_eq, List.reverse_append, List.reverse_cons,
    List.append_assoc, List.singleton_append] at hrev
  have hinj := append_slash_inj s1.data.reverse s2.data.reverse
    m1.data.reverse m2.data.reverse
    (fun hm => h1 (List.mem_reverse.mp hm))
    (fun hm => h2 (List.mem_reverse.mp hm)) hrev
  refine ⟨?_, ?_, fun t => rfl⟩
  · exact stringDataInj m1 m2 (List.reverse_injective hinj.2)
  · exact stringDataInj s1 s2 (List.reverse_injective hinj.1)

/-- C9 witness: the amended key injectivity applied to owner `o`, monitor
`m` and the rendered start `2026-01-01T00:00:00Z`. -/
theorem c9_witness :
    (('/' : Char) ∉ ("2026-01-01T00:00:00Z" : String).data) ∧
      ("m" : String) = "m" :=
  ⟨by decide, (c9_key_deterministic_and_injective "o" "m" "m"
    "2026-01-01T00:00:00Z" "2026-01-01T00:00:00Z"
    (by decide) (by decide) rfl).1⟩

/-- C10: every serialized artifact entry emits exactly the field names
`timestamp` and `monitorId` — the Values map goes under `monitorId` (the
struct tag on Values), the timestamp under `timestamp`, and no `values`
field exists. -/
theorem c10_values_field_named_monitorId (e : Entry) :
    (marshalEntry e).map Prod.fst = ["timestamp", "monitorId"] ∧
    (marshalEntry e).lookup "values" = none ∧
    (marshalEntry e).lookup "monitorId" = some (JField.obj e.Values) ∧
    (marshalEntry e).lookup "timestamp" = some (JField.str e.Timestamp) :=
  ⟨rfl, rfl, rfl, rfl⟩

end Archiver
